import Mathlib

/-!
Verification of the higher-kinded polymorphism exercise.

The repository defines a kind trait `K1` (one type slot `Inner`, a
substitution type-function `With`), capability traits `Functor`,
`Applicative`, `Monad` over it, and two instances: `Identity<T>` (a
one-field wrapper) and `Const<C, V>` (a carried value of type `C` and a
phantom slot `V`).

We embed the repository at two levels.

Value level: `Identity` and `Const` become Lean structures and each
trait method body is translated directly. Closure arguments in Rust may
perform effects; to reason about how often a closure is invoked we also
give the same method bodies in a state-threaded form (`fmapS`), where
calling the closure is the only operation that may transform the state.

Type level: the trait `K1` constrains its associated types by
  With<I>: K1<Inner = I> + K1<With<Self::Inner> = Self> + K1<With<I> = Self::With<I>>.
A `K1Model` packages a universe of type codes, the set of codes that
implement `K1`, the `Inner` and `With` projections, and those three
bounds. `repoModel` instantiates it with codes for the types that
actually occur in the repository.
-/

namespace HK

/-- The Rust struct `Identity<T>(T)`: a wrapper holding exactly one value. -/
structure Identity (α : Type) where
  val : α
deriving DecidableEq, Repr

/-- The Rust struct `Const<C, V> { inner: C, _marker: PhantomData<V> }`:
holds one auxiliary value of type `C`; the slot type `V` is phantom and
has no runtime field. -/
structure Const (C : Type) (V : Type) where
  inner : C
deriving DecidableEq, Repr

/-- Body of `impl Functor for Identity`: `fmap` is `Identity(f(self.0))`. -/
def Identity.fmap {α β : Type} (x : Identity α) (f : α → β) : Identity β :=
  Identity.mk (f x.val)

/-- Body of `impl Applicative for Identity`: `pure` is `Identity(val)`. -/
def Identity.pure {α : Type} (v : α) : Identity α :=
  Identity.mk v

/-- Body of `impl Applicative for Identity`: `zip_with` is `Identity(f(self.0, b.0))`. -/
def Identity.zip_with {α β γ : Type} (a : Identity α) (b : Identity β)
    (f : α → β → γ) : Identity γ :=
  Identity.mk (f a.val b.val)

/-- Body of `impl Monad for Identity`: `bind` is `f(self.0)`. -/
def Identity.bind {α β : Type} (a : Identity α) (f : α → Identity β) : Identity β :=
  f a.val

/-- Body of `impl Monad for Identity`: `flatten` is `self.0`. The Rust
signature restricts the contained type to be a same-family member; the
claims instantiate it at `Identity (Identity _)` accordingly. -/
def Identity.flatten {α : Type} (a : Identity α) : α :=
  a.val

/-- Body of `impl Functor for Const`: the closure argument is ignored and
the carried value is passed through, `Const { inner: self.inner, _marker: PhantomData }`. -/
def Const.fmap {C V β : Type} (x : Const C V) (_f : V → β) : Const C β :=
  Const.mk x.inner

/-- The body of `Identity::fmap` with the closure effect made explicit: the
closure receives and returns a state of type `σ`, and the body calls it on
`self.0` once, threading the state through that single call. -/
def Identity.fmapS {α β σ : Type} (x : Identity α) (f : α → σ → β × σ)
    (s : σ) : Identity β × σ :=
  let r := f x.val s
  (Identity.mk r.1, r.2)

/-- The body of `Const::fmap` with the closure effect made explicit: the
body never calls the closure, so the state comes back unchanged whatever
effect the closure would have performed. -/
def Const.fmapS {C A β σ : Type} (x : Const C A) (_f : A → σ → β × σ)
    (s : σ) : Const C β × σ :=
  (Const.mk x.inner, s)

/-- A model of the kind abstraction: a universe `Ty` of type codes, the
predicate `impl` marking the codes that implement `K1`, the associated
`Inner` code and the substitution function `With`, and the three bounds
the trait places on `With`:
`With<I>: K1` is `with_impl`, `K1<Inner = I>` is `with_inner`,
`K1<With<Self::Inner> = Self>` is `with_back`, and
`K1<With<I> = Self::With<I>>` is `with_same`. -/
structure K1Model where
  Ty : Type
  impl : Ty → Bool
  Inner : Ty → Ty
  With : Ty → Ty → Ty
  with_impl : ∀ t, impl t = true → ∀ i, impl (With t i) = true
  with_inner : ∀ t, impl t = true → ∀ i, Inner (With t i) = i
  with_back : ∀ t, impl t = true → ∀ i, With (With t i) (Inner t) = t
  with_same : ∀ t, impl t = true → ∀ i, With (With t i) i = With t i

/-- Type codes for the repository: base types, `Identity<T>`, `Const<C, V>`. -/
inductive RTy where
  | base : Nat → RTy
  | identity : RTy → RTy
  | const : RTy → RTy → RTy
deriving DecidableEq, Repr

/-- Which repository type codes implement `K1` (the two impl blocks). -/
def RTy.isK1 : RTy → Bool
  | .base _ => false
  | .identity _ => true
  | .const _ _ => true

/-- The associated type `Inner` of the two impl blocks:
`T` for `Identity<T>`, `V` for `Const<C, V>`. -/
def RTy.innerTy : RTy → RTy
  | .base n => .base n
  | .identity t => t
  | .const _ v => v

/-- The associated type `With<I>` of the two impl blocks:
`Identity<I>` for `Identity<T>`, `Const<C, I>` for `Const<C, V>`. -/
def RTy.withTy : RTy → RTy → RTy
  | .base n, _ => .base n
  | .identity _, i => .identity i
  | .const c _, i => .const c i

/-- The repository types as a model of the kind abstraction. -/
def repoModel : K1Model where
  Ty := RTy
  impl := RTy.isK1
  Inner := RTy.innerTy
  With := RTy.withTy
  with_impl := fun t h _ => by
    cases t with
    | base n => exact Bool.noConfusion h
    | identity a => rfl
    | const c v => rfl
  with_inner := fun t h i => by
    cases t with
    | base n => exact Bool.noConfusion h
    | identity a => rfl
    | const c v => rfl
  with_back := fun t h i => by
    cases t with
    | base n => exact Bool.noConfusion h
    | identity a => rfl
    | const c v => rfl
  with_same := fun t h i => by
    cases t with
    | base n => exact Bool.noConfusion h
    | identity a => rfl
    | const c v => rfl

/-- Type codes for a hypothetical pair of mutually referring families
`fam false` and `fam true`, used to probe which consequences the three
`K1` bounds force on their own. -/
inductive CTy where
  | base : Nat → CTy
  | fam : Bool → CTy → CTy
deriving DecidableEq, Repr

/-- Slot projection of the hypothetical families: the index is the slot. -/
def CTy.innerTy : CTy → CTy
  | .base n => .base n
  | .fam _ t => t

/-- Substitution of the hypothetical families: substituting the current
slot back is the identity, while substituting any other type switches to
the sibling family at the new slot. -/
def CTy.withTy : CTy → CTy → CTy
  | .base n, _ => .base n
  | .fam b t, i => if i = t then .fam b t else .fam (!b) i

/-- Which hypothetical codes implement `K1`. -/
def CTy.isK1 : CTy → Bool
  | .base _ => false
  | .fam _ _ => true

/-- The mutually referring families satisfy all three `K1` bounds, so
they form a model of the kind abstraction. -/
def crossModel : K1Model where
  Ty := CTy
  impl := CTy.isK1
  Inner := CTy.innerTy
  With := CTy.withTy
  with_impl := fun t h i => by
    cases t with
    | base n => exact Bool.noConfusion h
    | fam b x =>
      by_cases hix : i = x
      · simp [CTy.withTy, hix, CTy.isK1]
      · simp [CTy.withTy, hix, CTy.isK1]
  with_inner := fun t h i => by
    cases t with
    | base n => exact Bool.noConfusion h
    | fam b x =>
      by_cases hix : i = x
      · subst hix
        simp [CTy.withTy, CTy.innerTy]
      · simp [CTy.withTy, CTy.innerTy, hix]
  with_back := fun t h i => by
    cases t with
    | base n => exact Bool.noConfusion h
    | fam b x =>
      by_cases hix : i = x
      · subst hix
        simp [CTy.withTy, CTy.innerTy]
      · simp [CTy.withTy, CTy.innerTy, hix, Ne.symm hix, Bool.not_not]
  with_same := fun t h i => by
    cases t with
    | base n => exact Bool.noConfusion h
    | fam b x =>
      by_cases hix : i = x
      · subst hix
        simp [CTy.withTy]
      · simp [CTy.withTy, hix]

/-- C1 (amended): for every implementer satisfying the three `K1` bounds,
substituting the own contained type back yields the implementer itself
(`F::With<F::Inner> = F`), and the chained-substitution law
`F::With<I>::With<J> = F::With<J>` holds at `J = I` and at `J = F::Inner`;
for the repository implementers `Identity` and `Const` the
chained-substitution law holds for all `I` and `J`. -/
theorem k1_closure_laws :
    (∀ (M : K1Model) (t : M.Ty), M.impl t = true → M.With t (M.Inner t) = t) ∧
    (∀ (M : K1Model) (t i : M.Ty), M.impl t = true →
      M.With (M.With t i) i = M.With t i) ∧
    (∀ (M : K1Model) (t i : M.Ty), M.impl t = true →
      M.With (M.With t i) (M.Inner t) = M.With t (M.Inner t)) ∧
    (∀ (t i j : RTy), repoModel.impl t = true →
      repoModel.With (repoModel.With t i) j = repoModel.With t j) := by
  refine ⟨?_, ?_, ?_, ?_⟩
  · intro M t h
    have hb := M.with_back t h (M.Inner t)
    have hs := M.with_same t h (M.Inner t)
    rw [hs] at hb
    exact hb
  · intro M t i h
    exact M.with_same t h i
  · intro M t i h
    have hb := M.with_back t h i
    have hb2 := M.with_back t h (M.Inner t)
    have hs2 := M.with_same t h (M.Inner t)
    rw [hs2] at hb2
    rw [hb, hb2]
  · intro t i j h
    cases t with
    | base n => exact Bool.noConfusion h
    | identity a => rfl
    | const c v => rfl

/-- C1 witness: the first closure law evaluated on the code for
`Identity<i32>` in the repository model. -/
theorem k1_closure_laws_witness :
    repoModel.impl (RTy.identity (RTy.base 0)) = true ∧
    repoModel.With (RTy.identity (RTy.base 0))
      (repoModel.Inner (RTy.identity (RTy.base 0))) = RTy.identity (RTy.base 0) :=
  ⟨rfl, k1_closure_laws.1 repoModel (RTy.identity (RTy.base 0)) rfl⟩

/-- C1 counterexample: the three `K1` bounds alone do not force the
chained-substitution law for arbitrary `I` and `J`. In `crossModel` every
implementer satisfies all three bounds, yet starting from the family
member coded `fam false (base 0)`, substituting `base 1` and then
`base 2` lands in the sibling family, while substituting `base 2`
directly does not. -/
theorem k1_chain_law_countermodel :
    crossModel.impl (CTy.fam false (CTy.base 0)) = true ∧
    crossModel.With (crossModel.With (CTy.fam false (CTy.base 0)) (CTy.base 1))
        (CTy.base 2) ≠
      crossModel.With (CTy.fam false (CTy.base 0)) (CTy.base 2) :=
  ⟨rfl, by
    show CTy.withTy (CTy.withTy (CTy.fam false (CTy.base 0)) (CTy.base 1))
        (CTy.base 2) ≠
      CTy.withTy (CTy.fam false (CTy.base 0)) (CTy.base 2)
    decide⟩

/-- C2: flattening a twice-wrapped identity member returns the inner
member verbatim, and in the literal case wrapping `0` twice and
collapsing yields the single-wrapped `0`. -/
theorem identity_flatten_nested :
    (∀ (α : Type) (x : α),
      Identity.flatten (Identity.mk (Identity.mk x)) = Identity.mk x) ∧
    Identity.flatten (Identity.mk (Identity.mk (0 : Nat))) = Identity.mk 0 :=
  ⟨fun _ _ => rfl, rfl⟩

/-- C3 counterexample: for the constant family, `fmap` does not invoke its
closure exactly once. With the closure effect counted in an explicit
state, mapping a counting closure over `Const { inner: 0 }` leaves the
count at `0`, not `1`. -/
theorem fmap_call_count_const_zero :
    (Const.fmapS (Const.mk 0 : Const Nat Nat)
        (fun (a : Nat) (n : Nat) => (a, n + 1)) 0).2 ≠ 1 ∧
    (Const.fmapS (Const.mk 0 : Const Nat Nat)
        (fun (a : Nat) (n : Nat) => (a, n + 1)) 0).2 = 0 :=
  ⟨by decide, rfl⟩

/-- C3 (amended): `Identity::fmap` invokes its closure exactly once,
synchronously, before returning: running the effect-instrumented body on
any closure built from a value function `g` and a state effect `c`
returns `g` of the held value and applies the effect exactly once.
`Const::fmap` never invokes its closure: the state comes back unchanged
for every closure. So across the repository, `fmap` invokes its closure
at most once, not always exactly once. -/
theorem fmap_invocation_counts :
    (∀ (α β σ : Type) (x : Identity α) (g : α → β) (c : σ → σ) (s : σ),
      Identity.fmapS x (fun a t => (g a, c t)) s = (Identity.mk (g x.val), c s)) ∧
    (∀ (C A β σ : Type) (x : Const C A) (f : A → σ → β × σ) (s : σ),
      Const.fmapS x f s = (Const.mk x.inner, s)) :=
  ⟨fun _ _ _ _ _ _ _ => rfl, fun _ _ _ _ _ _ _ => rfl⟩

/-- C4: `Const::fmap` leaves the carried value unchanged, its result does
not depend on the supplied closure at all, and in the effect-instrumented
form the closure is never invoked: the state comes back unchanged, so
even a closure whose invocation would fail is safe. -/
theorem const_fmap_frame :
    (∀ (C A B : Type) (m : Const C A) (f : A → B),
      (Const.fmap m f).inner = m.inner) ∧
    (∀ (C A B : Type) (m : Const C A) (f g : A → B),
      Const.fmap m f = Const.fmap m g) ∧
    (∀ (C A B σ : Type) (m : Const C A) (f : A → σ → B × σ) (s : σ),
      Const.fmapS m f s = (Const.mk m.inner, s)) :=
  ⟨fun _ _ _ _ _ => rfl, fun _ _ _ _ _ _ => rfl, fun _ _ _ _ _ _ _ => rfl⟩

/-- C5: mapping with the identity closure returns the original member,
both for the identity family and for the constant family. -/
theorem fmap_identity_law :
    (∀ (α : Type) (x : Identity α), Identity.fmap x (fun v => v) = x) ∧
    (∀ (C V : Type) (m : Const C V), Const.fmap m (fun v => v) = m) :=
  ⟨fun _ _ => rfl, fun _ _ _ => rfl⟩

/-- C6: left identity of sequencing for the identity family,
`pure(x).bind(f) = f(x)`. -/
theorem identity_pure_bind :
    ∀ (α β : Type) (x : α) (f : α → Identity β),
      Identity.bind (Identity.pure x) f = f x :=
  fun _ _ _ _ => rfl

/-- C7: associativity of `bind` for the identity family,
`m.bind(g).bind(h) = m.bind(|x| g(x).bind(h))`. -/
theorem identity_bind_assoc :
    ∀ (α β γ : Type) (m : Identity α) (g : α → Identity β) (h : β → Identity γ),
      Identity.bind (Identity.bind m g) h =
        Identity.bind m (fun x => Identity.bind (g x) h) :=
  fun _ _ _ _ _ _ => rfl

/-- C8: `pure` commutes with mapping for the identity family,
`pure(x).fmap(f) = pure(f(x))`. -/
theorem identity_pure_fmap :
    ∀ (α β : Type) (x : α) (f : α → β),
      Identity.fmap (Identity.pure x) f = Identity.pure (f x) :=
  fun _ _ _ _ => rfl

/-- C9: `zip_with` applies the binary closure to the two held values and
wraps the result; in the literal case, zipping `2` and `3` with addition
yields `5`. -/
theorem identity_zip_with_spec :
    (∀ (α β γ : Type) (a : α) (b : β) (f : α → β → γ),
      Identity.zip_with (Identity.mk a) (Identity.mk b) f = Identity.mk (f a b)) ∧
    Identity.zip_with (Identity.mk (2 : Nat)) (Identity.mk (3 : Nat))
        (fun a b => a + b) = Identity.mk 5 :=
  ⟨fun _ _ _ _ _ _ => rfl, rfl⟩

/-- C10: for the identity family, `fmap` coincides with its derivation
from `bind` and `pure`: `m.fmap(f) = m.bind(|x| pure(f(x)))`. -/
theorem identity_fmap_from_bind_pure :
    ∀ (α β : Type) (m : Identity α) (f : α → β),
      Identity.fmap m f = Identity.bind m (fun x => Identity.pure (f x)) :=
  fun _ _ _ _ => rfl

end HK
